import Mathlib

/-
Verification of the hybrid career recommender core (`model/model.py`, with the
legacy SBERT path in `app.py`).

The recommender combines three per-entity signals (semantic similarity,
psychometric trait alignment, academic marks alignment) into a weighted score,
applies a power-law uplift, rounds to an integer `final_score` in [0,100],
buckets the score into a label, and returns a descending stable sort truncated
to `top_k`.

Embedding conventions:
* Python floats are modelled as rationals (`ℚ`) in the alignment/normalization
  layer, which is pure field-and-comparison arithmetic, and as reals (`ℝ`) in
  the uplift layer, where the fractional power `final_norm ** FINAL_UPLIFT_EXP`
  is modelled by `Real.rpow`.
* Python `int(round(x))` uses round-half-to-even; `pyRound` mirrors that.
* Python dicts are modelled as insertion-ordered association lists
  (`List (String × _)`); `dict.get` is `List.lookup`.
* A Python value fed to `float(...)` is modelled by `PyVal`: `PyVal.num q` is a
  value on which `float` succeeds with result `q` (ints, floats, numeric
  strings, bools), `PyVal.nonNumeric s` is one on which `float` raises.
* A function that can raise an uncaught exception returns `Option`; `none` is
  the exception.
* `str.lower` / `str.strip` are modelled for the ASCII data the program uses.
* The SBERT embedding provider is opaque: the cosine similarity between a
  trait keyword embedding and the fixed career embedding is an arbitrary
  oracle `embSim : String → ℚ` supplied as a parameter (the provider is
  deterministic per career, so one function of the trait name suffices).
-/

namespace CareerRec

/-! ### Python-level primitives -/

/-- Clamp a value to [0,1]: Python `max(0.0, min(1.0, x))`. -/
def clamp01 {α : Type _} [LinearOrder α] [Zero α] [One α] (x : α) : α :=
  max 0 (min 1 x)

/-- Python 3 `round` on a float: round half to even, returning an integer. -/
noncomputable def pyRound (x : ℝ) : ℤ :=
  if x - ⌊x⌋ < 1/2 then ⌊x⌋
  else if (1:ℝ)/2 < x - ⌊x⌋ then ⌊x⌋ + 1
  else if Even ⌊x⌋ then ⌊x⌋ else ⌊x⌋ + 1

/-- ASCII lower-casing of a character, as Python `str.lower` acts on ASCII. -/
def lowerChar (c : Char) : Char :=
  if c.isUpper then Char.ofNat (c.toNat + 32) else c

/-- Python `s.lower()` (ASCII). -/
def pyLower (s : String) : String := ⟨s.data.map lowerChar⟩

/-- Whitespace test for `str.strip`. -/
def isWS (c : Char) : Bool := c = ' ' ∨ c = '\t' ∨ c = '\n' ∨ c = '\r'

/-- Python `s.strip()`. -/
def pyStrip (s : String) : String :=
  ⟨((s.data.dropWhile isWS).reverse.dropWhile isWS).reverse⟩

/-- Substring occurrence on lists (helper for Python `needle in hay`). -/
def infixB {α : Type _} [DecidableEq α] (needle : List α) : List α → Bool
  | [] => needle.isEmpty
  | b :: bs => needle.isPrefixOf (b :: bs) || infixB needle bs

/-- Python `needle in hay` on strings: substring containment. -/
def strContains (hay needle : String) : Bool := infixB needle.data hay.data

/-- Python list slicing `xs[:m]` for an integer bound `m`: a negative bound
drops the last `|m|` elements, a non-negative bound keeps the first `m`. -/
def pySliceTo {α : Type _} (m : ℤ) (xs : List α) : List α :=
  if m < 0 then xs.take ((xs.length : ℤ) + m).toNat else xs.take m.toNat

/-! ### Values fed to Python `float()` -/

/-- A Python value as seen by `float(...)`: either coercible with result `q`,
or one on which `float` raises (`nonNumeric`). -/
inductive PyVal where
  | num (q : ℚ)
  | nonNumeric (s : String)
deriving DecidableEq

/-- Python `float(v)`: `some` on success, `none` when `float` raises. -/
def pyFloat : PyVal → Option ℚ
  | .num q => some q
  | .nonNumeric _ => none

/-! ### Static configuration tables (model.py lines 32-61) -/

/-- Label thresholds on final_score, `LABELS` (model.py lines 32-38). -/
def LABELS : List (ℤ × String) :=
  [(80, "Excellent match"),
   (60, "Great match"),
   (40, "Good match"),
   (20, "Fair match"),
   (0,  "Low match")]

/-- Trait-to-keyword table `TRAIT_KEYWORDS` (model.py lines 41-49). -/
def TRAIT_KEYWORDS : List (String × List String) :=
  [("Analytical", ["analysis", "analyze", "analytical", "data", "statistics", "research", "modeling"]),
   ("Logical",    ["logic", "logical", "reasoning", "patterns", "algorithm", "deductive", "pattern"]),
   ("Technical",  ["programming", "software", "engineer", "technology", "technical", "coding", "developer", "it"]),
   ("Practical",  ["hands-on", "practical", "mechanical", "craft", "field", "construction", "repair", "technician"]),
   ("Social",     ["communication", "community", "counseling", "social", "customer", "service", "people"]),
   ("Leadership", ["manage", "manager", "lead", "leadership", "coordinate", "supervise", "director"]),
   ("Creative",   ["design", "creative", "art", "visual", "writer", "content", "innovation"])]

/-- Subject-to-keyword table `SUBJECT_KEYWORDS` (model.py lines 52-61). -/
def SUBJECT_KEYWORDS : List (String × List String) :=
  [("math", ["math", "mathematics", "calculus", "algebra", "statistics"]),
   ("physics", ["physics", "mechanics", "thermodynamics", "electromagnetics"]),
   ("chemistry", ["chemistry", "chemical", "biochemistry", "organic"]),
   ("biology", ["biology", "biological", "life science", "microbiology"]),
   ("computer", ["computer", "programming", "computer science", "cs", "software", "coding"]),
   ("english", ["communication", "writing", "english", "language", "literature"]),
   ("science", ["science"]),
   ("social", ["history", "geography", "political", "economics", "social"])]

/-! ### Career records -/

/-- A normalized career record, with the fields the scorers read
(`title`, `description`, `skills_required`, `path`). -/
structure Career where
  title : String
  description : String
  skills_required : List String
  path : List String
deriving DecidableEq

/-- Searchable text used by `_trait_alignment_score` (model.py lines 215-220):
space-join of title, description, joined skills, joined path, then
`.strip().lower()`. -/
def careerTraitText (c : Career) : String :=
  pyLower (pyStrip (String.intercalate " "
    [c.title, c.description,
     String.intercalate " " c.skills_required,
     String.intercalate " " c.path]))

/-- Searchable text used by `_marks_alignment_score` (model.py lines 274-279):
same join, lowered but not stripped. -/
def careerMarksText (c : Career) : String :=
  pyLower (String.intercalate " "
    [c.title, c.description,
     String.intercalate " " c.skills_required,
     String.intercalate " " c.path])

/-! ### Trait alignment (`_trait_alignment_score`, model.py lines 191-262) -/

/-- Clamped trait intensity `max(0.0, min(10.0, float(raw_val))) / 10.0`
(model.py line 239). -/
def traitNorm (v : ℚ) : ℚ := max 0 (min 10 v) / 10

/-- Fraction of a trait's keywords found as substrings of the career text,
`_keyword_fraction_for_trait` (model.py lines 191-201). The text is lowered
again inside the helper (idempotent on the already-lowered caller argument). -/
def keywordFractionForTrait (trait : String) (text : String) : ℚ :=
  match (TRAIT_KEYWORDS.lookup trait).getD [] with
  | [] => 0
  | kws =>
    let found := (kws.filter (fun kw => strContains (pyLower text) (pyLower kw))).length
    (found : ℚ) / max 1 (kws.length : ℚ)

/-- Accumulator of the trait loop: `accum` and `total_weight`
(model.py lines 234-235). -/
structure TraitAcc where
  accum : ℚ
  total : ℚ
deriving DecidableEq

/-- One iteration of the trait loop (model.py lines 236-258). Unrecognized
traits are skipped (`continue`); `float(raw_val)` is unguarded, so a
non-numeric value for a recognized trait raises: `none`. The embedding
similarity `util.cos_sim(trait_emb, career_emb).item()` is the oracle
`embSim trait` (a missing career embedding behaves as any oracle value ≤ -1,
whose clamped form is 0). -/
def traitStep (embSim : String → ℚ) (text : String) (acc : TraitAcc)
    (kv : String × PyVal) : Option TraitAcc :=
  if (TRAIT_KEYWORDS.lookup kv.1).isNone then some acc
  else match pyFloat kv.2 with
    | none => none
    | some v =>
      let tn := traitNorm v
      if tn ≤ 0 then some acc
      else
        let kwFrac := keywordFractionForTrait kv.1 text
        let embClamped := max 0 (min 1 ((embSim kv.1 + 1) / 2))
        let perTrait := max kwFrac embClamped
        some ⟨acc.accum + tn * perTrait, acc.total + tn⟩

/-- `_trait_alignment_score(trait_scores, career, career_emb)`
(model.py lines 204-262): `none` models an uncaught exception. -/
def trait_alignment_score (embSim : String → ℚ) (trait_scores : List (String × PyVal))
    (c : Career) : Option ℚ :=
  if trait_scores = [] then some 0
  else match trait_scores.foldlM (traitStep embSim (careerTraitText c)) ⟨0, 0⟩ with
    | none => none
    | some acc => if acc.total ≤ 0 then some 0 else some (acc.accum / acc.total)

/-! ### Marks alignment (`_marks_alignment_score`, model.py lines 265-313) -/

/-- One level of a marks mapping: subject → raw value. -/
abbrev Lvl : Type := List (String × PyVal)

/-- A marks mapping: level name → level dict. -/
abbrev Marks : Type := List (String × Lvl)

/-- Update of `subj_scores[key] = max(subj_scores.get(key, 0.0), subj_score)`
(model.py line 291), preserving dict insertion order. -/
def updateMax (key : String) (v : ℚ) : List (String × ℚ) → List (String × ℚ)
  | [] => [(key, max 0 v)]
  | (k, w) :: rest =>
    if k = key then (k, max w v) :: rest else (k, w) :: updateMax key v rest

/-- Level fetch `marks.get(level) or marks.get(level[:2]) or {}`
(model.py line 283): an absent or empty (falsy) entry falls through. -/
def getLevel (marks : Marks) (name short : String) : Lvl :=
  match marks.lookup name with
  | some l => if l.length ≠ 0 then l else (marks.lookup short).getD []
  | none => (marks.lookup short).getD []

/-- Flattening one level into `subj_scores` (model.py lines 285-291): keys
lowered, non-numeric values skipped by the `try/except: continue`, numeric
values max-merged. -/
def flattenLevel (lvl : Lvl) (acc : List (String × ℚ)) : List (String × ℚ) :=
  lvl.foldl (fun acc kv =>
    match pyFloat kv.2 with
    | some q => updateMax (pyLower kv.1) q acc
    | none => acc) acc

/-- The flattened `subj_scores` dict: levels iterated `"twelfth"` then
`"tenth"` (model.py line 282). -/
def subjScores (marks : Marks) : List (String × ℚ) :=
  flattenLevel (getLevel marks "tenth" "te") (flattenLevel (getLevel marks "twelfth" "tw") [])

/-- Keyword list for a subject: `SUBJECT_KEYWORDS.get(subj)` with falsy
fallback `[subj]` (model.py lines 299-301). -/
def subjectKeywords (subj : String) : List String :=
  match SUBJECT_KEYWORDS.lookup subj with
  | some l => if l.isEmpty then [subj] else l
  | none => [subj]

/-- One iteration of the subject loop (model.py lines 298-309). -/
def marksStep (text : String) (acc : ℚ × ℚ) (kv : String × ℚ) : ℚ × ℚ :=
  let kws := subjectKeywords kv.1
  let found := (kws.filter (fun kw => strContains text (pyLower kw))).length
  let frac := (found : ℚ) / max 1 (kws.length : ℚ)
  let importance := max 0 (min 100 kv.2) / 100
  (acc.1 + importance * frac, acc.2 + importance)

/-- `_marks_alignment_score(marks, career)` (model.py lines 265-313): total,
every raise path is guarded in the source. -/
def marks_alignment_score (marks : Marks) (c : Career) : ℚ :=
  if marks.length = 0 then 0
  else
    let ss := subjScores marks
    if ss.length = 0 then 0
    else
      let r := ss.foldl (marksStep (careerMarksText c)) (0, 0)
      if r.2 ≤ 0 then 0 else r.1 / r.2

/-! ### Similarity normalization (`_scale_sims_to_0_1`, model.py lines 316-330) -/

/-- Min-max rescale of the raw similarity vector to [0,1] with the flat-span
fallback `clamp(s / 0.6, 0, 1)`; the guard `0.6 > 0` in the source is
constant-true. `min(xs)` / `max(xs)` are folds over the nonempty list. -/
def scale_sims_to_0_1 (sims : List ℚ) : List ℚ :=
  match sims with
  | [] => []
  | s0 :: rest =>
    let sMin := rest.foldl min s0
    let sMax := rest.foldl max s0
    let span := sMax - sMin
    if span > 1/1000000000 then (s0 :: rest).map (fun s => (s - sMin) / span)
    else (s0 :: rest).map (fun s => clamp01 (s / (6/10)))

/-! ### Score combination, uplift and labels (recommend, model.py lines 392-413) -/

/-- Weighted combination of the three signals (model.py lines 393-397). -/
def combineSignals (wSbert wTrait wMarks sNorm traitScore marksScore : ℝ) : ℝ :=
  wSbert * sNorm + wTrait * traitScore + wMarks * marksScore

/-- The uplift step (model.py lines 400-404): clamp to [0,1], then the real
power `final_norm ** e`. For `e < 0` and base `0.0` Python raises
`ZeroDivisionError`, which the `except: pass` swallows leaving the clamped
value `0.0` — and `Real.rpow 0 e = 0` for `e ≠ 0`, so `rpow` of the clamped
value models the try/except faithfully for every exponent. -/
noncomputable def upliftNorm (e combined : ℝ) : ℝ := (clamp01 combined) ^ e

/-- `final_score = int(round(max(0.0, min(1.0, final_norm)) * 100.0))`
(model.py line 406). -/
noncomputable def finalScoreOf (e combined : ℝ) : ℤ :=
  pyRound (clamp01 (upliftNorm e combined) * 100)

/-- The label-selection walk (model.py lines 409-413): first threshold with
`final_score >= thresh` wins; the initial value `"Low match"` survives when no
threshold is met. -/
def labelWalk (s : ℤ) : List (ℤ × String) → String
  | [] => "Low match"
  | (t, lab) :: rest => if t ≤ s then lab else labelWalk s rest

/-- `match_label` of a final score. -/
def matchLabel (s : ℤ) : String := labelWalk s LABELS

/-- The threshold table read as the spec words it (first satisfied threshold
of 80/60/40/20, else the worst label). Stated from the spec, to be compared
with the walk over `LABELS`. -/
def labelSpecTable (s : ℤ) : String :=
  if 80 ≤ s then "Excellent match"
  else if 60 ≤ s then "Great match"
  else if 40 ≤ s then "Good match"
  else if 20 ≤ s then "Fair match"
  else "Low match"

/-! ### Ranking: stable descending sort and truncation (model.py lines 493-495) -/

/-- Stable insertion of an indexed score into a descending list: the inserted
element goes before the first element whose score is ≤ its own. This realizes
the (documented stable) Python `list.sort(key=..., reverse=True)` tie
behavior: an element earlier in iteration order is inserted later and lands
before its ties. -/
def insertDesc (a : ℕ × ℤ) : List (ℕ × ℤ) → List (ℕ × ℤ)
  | [] => [a]
  | b :: l => if b.2 ≤ a.2 then a :: b :: l else b :: insertDesc a l

/-- Stable descending sort by score, `recs.sort(key=lambda x:
x.get("final_score", 0), reverse=True)` (model.py line 494). -/
def sortDesc : List (ℕ × ℤ) → List (ℕ × ℤ)
  | [] => []
  | a :: l => insertDesc a (sortDesc l)

/-- Corpus-iteration order: entity index paired with its final score. -/
def enumScores (ss : List ℤ) : List (ℕ × ℤ) := ss.enum

/-- Truncation `recs[:min(top_k, len(recs))]` (model.py line 495). -/
def truncTopK (recs : List (ℕ × ℤ)) (top_k : ℤ) : List (ℕ × ℤ) :=
  pySliceTo (min top_k (recs.length : ℤ)) recs

/-- The ordered output of `recommend` as a function of the per-entity final
scores (in corpus order) and `top_k`. -/
def recommendOrder (ss : List ℤ) (top_k : ℤ) : List (ℕ × ℤ) :=
  truncTopK (sortDesc (enumScores ss)) top_k

/-! ### Profile text handed to the provider -/

/-- Text handed to `model.encode` by `_cosine_similarities` (model.py line
185): `str(profile_text)`, the identity on a string — no empty-text guard. -/
def cosineQueryText (profile_text : String) : String := profile_text

/-- Text handed to `model.encode` by the legacy `sbert_recommend` (app.py
lines 190-193): falsy (empty) text is replaced by the fixed phrase. -/
def sbertRecommendQueryText (profile_text : String) : String :=
  if profile_text = "" then "student seeking career guidance" else profile_text

/-! ### Basic lemmas about the primitives -/

theorem clamp01_nonneg {α : Type _} [LinearOrderedField α] (x : α) : 0 ≤ clamp01 x :=
  le_max_left 0 _

theorem clamp01_le_one {α : Type _} [LinearOrderedField α] (x : α) : clamp01 x ≤ 1 :=
  max_le zero_le_one (min_le_left 1 x)

theorem clamp01_mono {α : Type _} [LinearOrderedField α] {x y : α} (h : x ≤ y) :
    clamp01 x ≤ clamp01 y :=
  max_le_max le_rfl (min_le_min le_rfl h)

theorem clamp01_eq_one_of_one_le {α : Type _} [LinearOrderedField α] {x : α} (h : 1 ≤ x) :
    clamp01 x = 1 := by
  unfold clamp01
  rw [min_eq_left h]
  exact max_eq_right zero_le_one

theorem clamp01_zero {α : Type _} [LinearOrderedField α] : clamp01 (0 : α) = 0 := by
  simp [clamp01]

theorem clamp01_one {α : Type _} [LinearOrderedField α] : clamp01 (1 : α) = 1 := by
  simp [clamp01]

theorem pyRound_bounds (x : ℝ) : ⌊x⌋ ≤ pyRound x ∧ pyRound x ≤ ⌊x⌋ + 1 := by
  unfold pyRound
  split_ifs <;> omega

theorem pyRound_mono {x y : ℝ} (h : x ≤ y) : pyRound x ≤ pyRound y := by
  have hfl := Int.floor_mono h
  rcases eq_or_lt_of_le hfl with hf | hf
  · unfold pyRound
    rw [hf]
    split_ifs <;> first | omega | linarith
  · have h1 := (pyRound_bounds x).2
    have h2 := (pyRound_bounds y).1
    omega

theorem pyRound_nonneg {x : ℝ} (h : 0 ≤ x) : 0 ≤ pyRound x := by
  have h0 : (0 : ℤ) ≤ ⌊x⌋ := Int.le_floor.mpr (by exact_mod_cast h)
  have := (pyRound_bounds x).1
  omega

theorem pyRound_le_int {x : ℝ} {n : ℤ} (h : x ≤ (n : ℝ)) : pyRound x ≤ n := by
  have hfn : ⌊x⌋ ≤ n := by
    have := Int.floor_mono h
    rwa [Int.floor_intCast] at this
  have hfl : (⌊x⌋ : ℝ) ≤ x := Int.floor_le x
  unfold pyRound
  split_ifs with h1 h2 h3
  · exact hfn
  · have hx : (⌊x⌋ : ℝ) + 1/2 ≤ x := by linarith
    have : (⌊x⌋ : ℝ) < (n : ℝ) := by linarith
    have : ⌊x⌋ < n := by exact_mod_cast this
    omega
  · exact hfn
  · push_neg at h1
    have hx : (⌊x⌋ : ℝ) + 1/2 ≤ x := by linarith
    have : (⌊x⌋ : ℝ) < (n : ℝ) := by linarith
    have : ⌊x⌋ < n := by exact_mod_cast this
    omega

theorem pyRound_intCast (n : ℤ) : pyRound ((n : ℤ) : ℝ) = n := by
  unfold pyRound
  rw [Int.floor_intCast, sub_self]
  norm_num

/-! ### Monotonicity of the uplift step -/

/-- The whole per-entity map from the combined score to the clamped uplifted
value is monotone for every real exponent: for `e ≥ 0` by monotonicity of
`rpow` on the clamped base, for `e < 0` because every positive clamped base
is ≤ 1 so its power is ≥ 1 and clamps to 1, while the base 0 stays 0 (in
Python via the swallowed `ZeroDivisionError`). -/
theorem clamped_uplift_mono (e : ℝ) {c d : ℝ} (h : c ≤ d) :
    clamp01 (upliftNorm e c) ≤ clamp01 (upliftNorm e d) := by
  unfold upliftNorm
  have hc0 : (0 : ℝ) ≤ clamp01 c := clamp01_nonneg c
  have hcd : clamp01 c ≤ clamp01 d := clamp01_mono h
  rcases le_or_lt 0 e with he | he
  · exact clamp01_mono (Real.rpow_le_rpow hc0 hcd he)
  · rcases eq_or_lt_of_le hc0 with hc | hc
    · rw [← hc, Real.zero_rpow he.ne, clamp01_zero]
      exact clamp01_nonneg _
    · have hd : (0 : ℝ) < clamp01 d := lt_of_lt_of_le hc hcd
      have h1c : 1 ≤ clamp01 c ^ e :=
        Real.one_le_rpow_of_pos_of_le_one_of_nonpos hc (clamp01_le_one c) he.le
      have h1d : 1 ≤ clamp01 d ^ e :=
        Real.one_le_rpow_of_pos_of_le_one_of_nonpos hd (clamp01_le_one d) he.le
      rw [clamp01_eq_one_of_one_le h1c, clamp01_eq_one_of_one_le h1d]

/-- C1: in `recommend`, for two entities whose combined weighted scores
satisfy `combined_A > combined_B` before the uplift, applying the uplift
exponent, clamping to [0,1], scaling by 100 and rounding never yields
`final_score_A < final_score_B`: the per-entity map from combined score to
`final_score` is monotonically non-decreasing (here proved for every real
exponent, which covers the configured non-negative default 0.6). -/
theorem final_score_monotone_in_combined (e cA cB : ℝ) (h : cB < cA) :
    finalScoreOf e cB ≤ finalScoreOf e cA := by
  unfold finalScoreOf
  apply pyRound_mono
  have hm := clamped_uplift_mono e h.le
  linarith

/-- Witness for C1 at the default exponent 0.6 and combined scores 1 > 0. -/
theorem final_score_monotone_in_combined_witness :
    (0 : ℝ) < 1 ∧ finalScoreOf (3/5) 0 ≤ finalScoreOf (3/5) 1 :=
  ⟨by norm_num, final_score_monotone_in_combined (3/5) 1 0 (by norm_num)⟩

/-- C4: for any signal values, any weights and any non-negative uplift
exponent, the `final_score` produced by the per-entity pipeline of
`recommend` is an integer (the codomain is `ℤ`) lying in [0,100]. -/
theorem final_score_in_range (wS wT wM s t m e : ℝ) (he : 0 ≤ e) :
    0 ≤ finalScoreOf e (combineSignals wS wT wM s t m) ∧
      finalScoreOf e (combineSignals wS wT wM s t m) ≤ 100 := by
  constructor
  · apply pyRound_nonneg
    have := clamp01_nonneg (α := ℝ) (upliftNorm e (combineSignals wS wT wM s t m))
    linarith
  · apply pyRound_le_int
    have := clamp01_le_one (α := ℝ) (upliftNorm e (combineSignals wS wT wM s t m))
    push_cast
    linarith

/-- Witness for C4 at the default weights 0.65/0.25/0.10, unit signals and
the default exponent 0.6. -/
theorem final_score_in_range_witness :
    (0 : ℝ) ≤ 3/5 ∧
      (0 ≤ finalScoreOf (3/5) (combineSignals (65/100) (25/100) (10/100) 1 1 1) ∧
        finalScoreOf (3/5) (combineSignals (65/100) (25/100) (10/100) 1 1 1) ≤ 100) :=
  ⟨by norm_num, final_score_in_range (65/100) (25/100) (10/100) 1 1 1 (3/5) (by norm_num)⟩

/-- C9: for every final score in [0,100] the label walk over the fixed
ordered threshold table agrees with the first-satisfied-threshold reading of
the spec, and the boundary scores 80/60/40/20/0 map to the five labels in
order while 79 maps to the label below 80's. -/
theorem match_label_threshold_table :
    (∀ s : ℤ, 0 ≤ s → s ≤ 100 → matchLabel s = labelSpecTable s) ∧
      matchLabel 80 = "Excellent match" ∧ matchLabel 60 = "Great match" ∧
      matchLabel 40 = "Good match" ∧ matchLabel 20 = "Fair match" ∧
      matchLabel 0 = "Low match" ∧ matchLabel 79 = "Great match" := by
  refine ⟨?_, by decide, by decide, by decide, by decide, by decide, by decide⟩
  intro s _ _
  simp only [matchLabel, LABELS, labelWalk, labelSpecTable]
  split_ifs <;> rfl

/-- Witness for C9 at the score 79. -/
theorem match_label_threshold_table_witness :
    matchLabel 79 = labelSpecTable 79 ∧ labelSpecTable 79 = "Great match" :=
  ⟨match_label_threshold_table.1 79 (by decide) (by decide), by decide⟩

/-! ### The descending sort: permutation, sortedness, stability -/

theorem mem_insertDesc {a c : ℕ × ℤ} {l : List (ℕ × ℤ)} :
    c ∈ insertDesc a l ↔ c = a ∨ c ∈ l := by
  induction l with
  | nil => simp [insertDesc]
  | cons b l ih =>
    unfold insertDesc
    split_ifs
    · simp [or_comm, or_assoc, or_left_comm]
    · simp only [List.mem_cons, ih]
      tauto

theorem insertDesc_perm (a : ℕ × ℤ) (l : List (ℕ × ℤ)) :
    (insertDesc a l).Perm (a :: l) := by
  induction l with
  | nil => exact List.Perm.refl _
  | cons b l ih =>
    unfold insertDesc
    split_ifs
    · exact List.Perm.refl _
    · exact ((List.perm_cons b).mpr ih).trans (List.Perm.swap a b l)

/-- The sort is a permutation of the corpus-order list. -/
theorem sortDesc_perm (l : List (ℕ × ℤ)) : (sortDesc l).Perm l := by
  induction l with
  | nil => exact List.Perm.refl _
  | cons a l ih =>
    exact (insertDesc_perm a (sortDesc l)).trans ((List.perm_cons a).mpr ih)

theorem mem_sortDesc {c : ℕ × ℤ} {l : List (ℕ × ℤ)} : c ∈ sortDesc l ↔ c ∈ l :=
  (sortDesc_perm l).mem_iff

/-- Sortedness: the output scores are descending. -/
theorem sortDesc_sorted (l : List (ℕ × ℤ)) :
    (sortDesc l).Pairwise (fun p q => q.2 ≤ p.2) := by
  have hins : ∀ (a : ℕ × ℤ) (m : List (ℕ × ℤ)),
      m.Pairwise (fun p q => q.2 ≤ p.2) →
      (insertDesc a m).Pairwise (fun p q => q.2 ≤ p.2) := by
    intro a m
    induction m with
    | nil => intro _; simp [insertDesc]
    | cons b m ih =>
      intro hm
      rw [List.pairwise_cons] at hm
      unfold insertDesc
      split_ifs with hba
      · rw [List.pairwise_cons]
        refine ⟨?_, List.pairwise_cons.mpr hm⟩
        intro c hc
        rcases List.mem_cons.mp hc with rfl | hc
        · exact hba
        · exact le_trans (hm.1 c hc) hba
      · rw [List.pairwise_cons]
        refine ⟨?_, ih hm.2⟩
        intro c hc
        rcases mem_insertDesc.mp hc with rfl | hc
        · exact (not_le.mp hba).le
        · exact hm.1 c hc
  induction l with
  | nil => exact List.Pairwise.nil
  | cons a l ih => exact hins a (sortDesc l) ih

/-- Stability kernel: inserting an element that relates (under the
tie-respecting relation) to everything already present preserves
pairwise tie order. -/
theorem pairwise_insertDesc {R : ℕ × ℤ → ℕ × ℤ → Prop}
    (hR : ∀ p q : ℕ × ℤ, q.2 < p.2 → R p q) {a : ℕ × ℤ} {l : List (ℕ × ℤ)}
    (ha : ∀ b ∈ l, R a b) (hl : l.Pairwise R) :
    (insertDesc a l).Pairwise R := by
  induction l with
  | nil => simp [insertDesc]
  | cons b l ih =>
    rw [List.pairwise_cons] at hl
    unfold insertDesc
    split_ifs with hba
    · rw [List.pairwise_cons]
      exact ⟨ha, List.pairwise_cons.mpr hl⟩
    · rw [List.pairwise_cons]
      refine ⟨?_, ih (fun c hc => ha c (List.mem_cons_of_mem b hc)) hl.2⟩
      intro c hc
      rcases mem_insertDesc.mp hc with rfl | hc
      · exact hR b c (not_le.mp hba)
      · exact hl.1 c hc

/-- The sort preserves any pairwise relation that holds automatically
between an entity of strictly larger score and one of smaller score —
in particular the tie-order relation. -/
theorem pairwise_sortDesc {R : ℕ × ℤ → ℕ × ℤ → Prop}
    (hR : ∀ p q : ℕ × ℤ, q.2 < p.2 → R p q) {l : List (ℕ × ℤ)}
    (hl : l.Pairwise R) : (sortDesc l).Pairwise R := by
  induction l with
  | nil => exact List.Pairwise.nil
  | cons a l ih =>
    rw [List.pairwise_cons] at hl
    refine pairwise_insertDesc hR ?_ (ih hl.2)
    intro b hb
    exact hl.1 b (mem_sortDesc.mp hb)

theorem enumScores_pairwise (ss : List ℤ) :
    (enumScores ss).Pairwise (fun p q : ℕ × ℤ => p.1 < q.1) := by
  unfold enumScores
  rw [List.enum]
  generalize 0 = n
  induction ss generalizing n with
  | nil => exact List.Pairwise.nil
  | cons s ss ih =>
    rw [List.enumFrom]
    rw [List.pairwise_cons]
    refine ⟨?_, ih (n + 1)⟩
    rintro ⟨i, x⟩ hq
    have := (List.mem_enumFrom hq).1
    omega

theorem pySliceTo_sublist {α : Type _} (m : ℤ) (xs : List α) :
    List.Sublist (pySliceTo m xs) xs := by
  unfold pySliceTo
  split_ifs
  · exact List.take_sublist _ xs
  · exact List.take_sublist _ xs

/-- C2: in the output of `recommend`, any pair of entities appearing in that
order with equal `final_score` has strictly increasing corpus indices: the
descending sort (and any truncation of it) is stable with respect to
corpus-iteration order. -/
theorem recommend_order_tie_stable (ss : List ℤ) (top_k : ℤ) :
    (recommendOrder ss top_k).Pairwise (fun p q => p.2 = q.2 → p.1 < q.1) := by
  have h1 : (enumScores ss).Pairwise (fun p q : ℕ × ℤ => p.2 = q.2 → p.1 < q.1) := by
    refine (enumScores_pairwise ss).imp ?_
    intro a b h _
    exact h
  have h2 := pairwise_sortDesc (fun p q hlt heq => absurd heq (by omega)) h1
  exact h2.sublist (pySliceTo_sublist _ _)

/-- C10: at the public interface, `top_k = 0` returns the empty list and a
negative `top_k` returns the ranked list with its last `|top_k|` entries
removed (Python negative-slice truncation); no error is raised. -/
theorem recommend_top_k_truncation (recs : List (ℕ × ℤ)) (top_k : ℤ) :
    (top_k = 0 → truncTopK recs top_k = []) ∧
      (top_k < 0 → truncTopK recs top_k = recs.take (recs.length - top_k.natAbs)) := by
  constructor
  · rintro rfl
    unfold truncTopK pySliceTo
    rw [min_eq_left (by positivity)]
    norm_num
  · intro hk
    unfold truncTopK pySliceTo
    rw [min_eq_left (by omega), if_pos hk]
    congr 1
    omega

/-- Witness for C10: a three-entity ranked list with `top_k = 0` and
`top_k = -1`. -/
theorem recommend_top_k_truncation_witness :
    truncTopK [(0, 9), (1, 5), (2, 1)] 0 = [] ∧
      truncTopK [(0, 9), (1, 5), (2, 1)] (-1) = [(0, 9), (1, 5)] := by
  constructor
  · exact (recommend_top_k_truncation [(0, 9), (1, 5), (2, 1)] 0).1 rfl
  · rw [(recommend_top_k_truncation [(0, 9), (1, 5), (2, 1)] (-1)).2 (by decide)]
    decide

/-! ### Similarity normalization: the fold computes min and max -/

theorem foldl_min_le_init (l : List ℚ) (a : ℚ) : l.foldl min a ≤ a := by
  induction l generalizing a with
  | nil => exact le_refl a
  | cons b l ih => exact le_trans (ih (min a b)) (min_le_left a b)

theorem foldl_min_le_mem (l : List ℚ) (a : ℚ) {x : ℚ} (hx : x ∈ l) :
    l.foldl min a ≤ x := by
  induction l generalizing a with
  | nil => cases hx
  | cons b l ih =>
    rw [List.foldl_cons]
    rcases List.mem_cons.mp hx with rfl | hx2
    · exact le_trans (foldl_min_le_init l (min a x)) (min_le_right a x)
    · exact ih (min a b) hx2

theorem foldl_min_mem (l : List ℚ) (a : ℚ) : l.foldl min a = a ∨ l.foldl min a ∈ l := by
  induction l generalizing a with
  | nil => exact Or.inl rfl
  | cons b l ih =>
    rw [List.foldl_cons]
    rcases ih (min a b) with h | h
    · rcases min_choice a b with hm | hm
      · exact Or.inl (by rw [h, hm])
      · exact Or.inr (by rw [h, hm]; exact List.mem_cons_self b l)
    · exact Or.inr (List.mem_cons_of_mem b h)

theorem le_foldl_max_init (l : List ℚ) (a : ℚ) : a ≤ l.foldl max a := by
  induction l generalizing a with
  | nil => exact le_refl a
  | cons b l ih => exact le_trans (le_max_left a b) (ih (max a b))

theorem le_foldl_max_mem (l : List ℚ) (a : ℚ) {x : ℚ} (hx : x ∈ l) :
    x ≤ l.foldl max a := by
  induction l generalizing a with
  | nil => cases hx
  | cons b l ih =>
    rw [List.foldl_cons]
    rcases List.mem_cons.mp hx with rfl | hx2
    · exact le_trans (le_max_right a x) (le_foldl_max_init l (max a x))
    · exact ih (max a b) hx2

theorem foldl_max_mem (l : List ℚ) (a : ℚ) : l.foldl max a = a ∨ l.foldl max a ∈ l := by
  induction l generalizing a with
  | nil => exact Or.inl rfl
  | cons b l ih =>
    rw [List.foldl_cons]
    rcases ih (max a b) with h | h
    · rcases max_choice a b with hm | hm
      · exact Or.inl (by rw [h, hm])
      · exact Or.inr (by rw [h, hm]; exact List.mem_cons_self b l)
    · exact Or.inr (List.mem_cons_of_mem b h)

/-- C3: for a non-empty raw similarity list, the program's fold-computed
`s_min`/`s_max` are a true minimum and maximum of the list; when their span
exceeds 1e-9 the result is the per-index min-max rescale, when the span is at
or below 1e-9 every entry gets the fallback `clamp(raw/0.6, 0, 1)`; in
particular a 2-entity corpus with identical raw similarity takes the
fallback branch on both entries. -/
theorem scale_sims_minmax_and_fallback (s0 : ℚ) (rest : List ℚ) :
    (rest.foldl min s0 ∈ s0 :: rest ∧ (∀ x ∈ s0 :: rest, rest.foldl min s0 ≤ x) ∧
      rest.foldl max s0 ∈ s0 :: rest ∧ (∀ x ∈ s0 :: rest, x ≤ rest.foldl max s0)) ∧
    (rest.foldl max s0 - rest.foldl min s0 > 1/1000000000 →
      scale_sims_to_0_1 (s0 :: rest) =
        (s0 :: rest).map (fun s =>
          (s - rest.foldl min s0) / (rest.foldl max s0 - rest.foldl min s0))) ∧
    (rest.foldl max s0 - rest.foldl min s0 ≤ 1/1000000000 →
      scale_sims_to_0_1 (s0 :: rest) =
        (s0 :: rest).map (fun s => clamp01 (s / (6/10)))) ∧
    (∀ r : ℚ, scale_sims_to_0_1 [r, r] =
      [clamp01 (r / (6/10)), clamp01 (r / (6/10))]) := by
  refine ⟨⟨?_, ?_, ?_, ?_⟩, ?_, ?_, ?_⟩
  · rcases foldl_min_mem rest s0 with h | h
    · rw [h]; exact List.mem_cons_self s0 rest
    · exact List.mem_cons_of_mem s0 h
  · intro x hx
    rcases List.mem_cons.mp hx with rfl | hx2
    · exact foldl_min_le_init rest x
    · exact foldl_min_le_mem rest s0 hx2
  · rcases foldl_max_mem rest s0 with h | h
    · rw [h]; exact List.mem_cons_self s0 rest
    · exact List.mem_cons_of_mem s0 h
  · intro x hx
    rcases List.mem_cons.mp hx with rfl | hx2
    · exact le_foldl_max_init rest x
    · exact le_foldl_max_mem rest s0 hx2
  · intro h
    simp only [scale_sims_to_0_1]
    rw [if_pos h]
  · intro h
    simp only [scale_sims_to_0_1]
    rw [if_neg (not_lt.mpr h)]
  · intro r
    simp only [scale_sims_to_0_1, List.foldl_cons, List.foldl_nil, min_self, max_self,
      sub_self]
    norm_num

/-- Witness for C3: a spread pair takes the min-max branch and rescales to
the endpoints; a flat pair takes the fallback branch. -/
theorem scale_sims_minmax_and_fallback_witness :
    scale_sims_to_0_1 [(1 : ℚ), 2] = [0, 1] ∧
      scale_sims_to_0_1 [(3 : ℚ)/10, 3/10] = [1/2, 1/2] := by
  constructor
  · rw [(scale_sims_minmax_and_fallback 1 [2]).2.1 (by norm_num)]
    norm_num [List.foldl, min_def, max_def]
  · rw [(scale_sims_minmax_and_fallback (3/10) [3/10]).2.2.2 (3/10)]
    norm_num [clamp01, min_def, max_def]

/-! ### Marks flattening: lookups through the max-merge accumulator -/

theorem flattenLevel_cons (kv : String × PyVal) (lvl : Lvl) (acc : List (String × ℚ)) :
    flattenLevel (kv :: lvl) acc =
      flattenLevel lvl
        (match pyFloat kv.2 with
         | some q => updateMax (pyLower kv.1) q acc
         | none => acc) := rfl

theorem flattenLevel_append (l1 l2 : Lvl) (acc : List (String × ℚ)) :
    flattenLevel (l1 ++ l2) acc = flattenLevel l2 (flattenLevel l1 acc) :=
  List.foldl_append _ _ l1 l2

theorem lookup_updateMax_self (key : String) (v : ℚ) (acc : List (String × ℚ)) :
    List.lookup key (updateMax key v acc) =
      some (max ((List.lookup key acc).getD 0) v) := by
  induction acc with
  | nil => simp [updateMax, List.lookup]
  | cons kw acc ih =>
    obtain ⟨k, w⟩ := kw
    unfold updateMax
    by_cases hk : k = key
    · subst hk
      simp [List.lookup]
    · rw [if_neg hk]
      have hbk : (key == k) = false := by
        simp [beq_iff_eq]
        exact fun h => hk h.symm
      simp only [List.lookup, hbk, ih]

theorem lookup_updateMax_other {key key2 : String} (h : key2 ≠ key) (v : ℚ)
    (acc : List (String × ℚ)) :
    List.lookup key (updateMax key2 v acc) = List.lookup key acc := by
  induction acc with
  | nil =>
    have hbk : (key == key2) = false := by
      simp [beq_iff_eq]
      exact fun hc => h hc.symm
    simp [updateMax, List.lookup, hbk]
  | cons kw acc ih =>
    obtain ⟨k, w⟩ := kw
    unfold updateMax
    by_cases hk : k = key2
    · subst hk
      have hbk : (key == k) = false := by
        simp [beq_iff_eq]
        exact fun hc => h hc.symm
      simp [List.lookup, hbk]
    · rw [if_neg hk]
      simp only [List.lookup, ih]

theorem lookup_flattenLevel_skip {key : String} {lvl : Lvl}
    (h : ∀ kv ∈ lvl, pyLower kv.1 ≠ key) (acc : List (String × ℚ)) :
    List.lookup key (flattenLevel lvl acc) = List.lookup key acc := by
  induction lvl generalizing acc with
  | nil => rfl
  | cons kv lvl ih =>
    rw [flattenLevel_cons]
    have hkv := h kv (List.mem_cons_self kv lvl)
    have hrest : ∀ p ∈ lvl, pyLower p.1 ≠ key :=
      fun p hp => h p (List.mem_cons_of_mem kv hp)
    cases hq : pyFloat kv.2 with
    | none => simp only [ih hrest]
    | some q => simp only [ih hrest, lookup_updateMax_other hkv]

/-- C5: for a marks mapping carrying a numeric score for the same
(case-insensitively compared) subject at both academic levels, the flattened
`subj_scores` entry for that subject is the maximum of the two scores (for
scores in the documented [0,100] range). -/
theorem marks_flatten_max_across_levels
    (marks : Marks) (lvl10 lvl12 pre10 post10 pre12 post12 : Lvl)
    (k1 k2 key : String) (s10 s12 : ℚ)
    (h10 : List.lookup "tenth" marks = some lvl10)
    (h12 : List.lookup "twelfth" marks = some lvl12)
    (e10 : lvl10 = pre10 ++ (k1, PyVal.num s10) :: post10)
    (e12 : lvl12 = pre12 ++ (k2, PyVal.num s12) :: post12)
    (hk1 : pyLower k1 = key) (hk2 : pyLower k2 = key)
    (hothers10 : ∀ kv ∈ pre10 ++ post10, pyLower kv.1 ≠ key)
    (hothers12 : ∀ kv ∈ pre12 ++ post12, pyLower kv.1 ≠ key)
    (hs10a : 0 ≤ s10) (hs10b : s10 ≤ 100) (hs12a : 0 ≤ s12) (hs12b : s12 ≤ 100) :
    List.lookup key (subjScores marks) = some (max s10 s12) := by
  have hpre10 : ∀ kv ∈ pre10, pyLower kv.1 ≠ key :=
    fun kv hkv => hothers10 kv (List.mem_append_left _ hkv)
  have hpost10 : ∀ kv ∈ post10, pyLower kv.1 ≠ key :=
    fun kv hkv => hothers10 kv (List.mem_append_right _ hkv)
  have hpre12 : ∀ kv ∈ pre12, pyLower kv.1 ≠ key :=
    fun kv hkv => hothers12 kv (List.mem_append_left _ hkv)
  have hpost12 : ∀ kv ∈ post12, pyLower kv.1 ≠ key :=
    fun kv hkv => hothers12 kv (List.mem_append_right _ hkv)
  have hg12 : getLevel marks "twelfth" "tw" = lvl12 := by
    unfold getLevel
    rw [h12]
    simp [e12]
  have hg10 : getLevel marks "tenth" "te" = lvl10 := by
    unfold getLevel
    rw [h10]
    simp [e10]
  unfold subjScores
  rw [hg10, hg12, e10, e12, flattenLevel_append, flattenLevel_append,
    flattenLevel_cons, flattenLevel_cons]
  simp only [pyFloat, hk1, hk2]
  rw [lookup_flattenLevel_skip hpost10, lookup_updateMax_self,
    lookup_flattenLevel_skip hpre10, lookup_flattenLevel_skip hpost12,
    lookup_updateMax_self, lookup_flattenLevel_skip hpre12]
  have hnil : List.lookup key ([] : List (String × ℚ)) = none := rfl
  rw [hnil]
  simp only [Option.getD_none, Option.getD_some]
  rw [max_eq_right hs12a, max_comm s12 s10]

/-- Witness for C5 at the documented scenario: tenth math 90, twelfth math
60 flatten to 90. -/
theorem marks_flatten_max_across_levels_witness :
    List.lookup "math"
      (subjScores [("tenth", [("math", PyVal.num 90)]),
                   ("twelfth", [("math", PyVal.num 60)])]) = some 90 := by
  have h := marks_flatten_max_across_levels
    [("tenth", [("math", PyVal.num 90)]), ("twelfth", [("math", PyVal.num 60)])]
    [("math", PyVal.num 90)] [("math", PyVal.num 60)] [] [] [] []
    "math" "math" "math" 90 60
    (by decide) (by decide) rfl rfl (by decide) (by decide)
    (by simp) (by simp) (by norm_num) (by norm_num) (by norm_num) (by norm_num)
  rw [h]
  norm_num [max_def]

/-! ### Trait values are clamped, not used as-is (C6) -/

theorem traitNorm_of_ge {v : ℚ} (hv : 10 ≤ v) : traitNorm v = traitNorm 10 := by
  unfold traitNorm
  rw [min_eq_left hv, min_self]

theorem traitStep_congr_num (embSim : String → ℚ) (text : String) (acc : TraitAcc)
    (t : String) {v w : ℚ} (h : traitNorm v = traitNorm w) :
    traitStep embSim text acc (t, PyVal.num v) = traitStep embSim text acc (t, PyVal.num w) := by
  simp only [traitStep, pyFloat]
  rw [h]

theorem traitFold_congr_num (embSim : String → ℚ) (text : String)
    (pre post : List (String × PyVal)) (t : String) {v w : ℚ}
    (h : traitNorm v = traitNorm w) :
    ∀ acc : TraitAcc,
      List.foldlM (traitStep embSim text) acc (pre ++ (t, PyVal.num v) :: post) =
        List.foldlM (traitStep embSim text) acc (pre ++ (t, PyVal.num w) :: post) := by
  induction pre with
  | nil =>
    intro acc
    rw [List.nil_append, List.nil_append, List.foldlM_cons, List.foldlM_cons,
      traitStep_congr_num embSim text acc t h]
  | cons p pre ih =>
    intro acc
    rw [List.cons_append, List.cons_append, List.foldlM_cons, List.foldlM_cons]
    cases hstep : traitStep embSim text acc p with
    | none => rfl
    | some acc2 =>
      exact ih acc2

/-- Amended C6: trait score values outside [0,10] are clamped by the
trait-alignment formula (`max(0.0, min(10.0, v)) / 10.0`): every value at or
above 10 produces exactly the contribution weight of the value 10, and the
whole alignment score is unchanged when such a value is replaced by 10. -/
theorem trait_values_clamped :
    (∀ v : ℚ, 10 ≤ v → traitNorm v = traitNorm 10) ∧
      (∀ v : ℚ, 10 ≤ v →
        ∀ (embSim : String → ℚ) (pre post : List (String × PyVal)) (t : String) (c : Career),
          trait_alignment_score embSim (pre ++ (t, PyVal.num v) :: post) c =
            trait_alignment_score embSim (pre ++ (t, PyVal.num 10) :: post) c) := by
  refine ⟨fun v hv => traitNorm_of_ge hv, ?_⟩
  intro v hv embSim pre post t c
  unfold trait_alignment_score
  rw [if_neg (by simp), if_neg (by simp)]
  rw [traitFold_congr_num embSim (careerTraitText c) pre post t (traitNorm_of_ge hv)]

/-- Witness for the amended C6. -/
theorem trait_values_clamped_witness :
    (10 : ℚ) ≤ 15 ∧
      trait_alignment_score (fun _ => 0) [("Technical", PyVal.num 15)]
          ⟨"software developer", "", [], []⟩ =
        trait_alignment_score (fun _ => 0) [("Technical", PyVal.num 10)]
          ⟨"software developer", "", [], []⟩ :=
  ⟨by norm_num,
    trait_values_clamped.2 15 (by norm_num) (fun _ => 0) [] [] "Technical"
      ⟨"software developer", "", [], []⟩⟩

/-- Counterexample to C6 as stated: the concrete trait value 15 produces the
same contribution weight and the same trait alignment as the value 10 — the
value is clamped, not used as-is. -/
theorem trait_value_used_as_is_counterexample :
    traitNorm 15 = traitNorm 10 ∧
      trait_alignment_score (fun _ => -1) [("Technical", PyVal.num 15)]
          ⟨"coding", "", [], []⟩ =
        trait_alignment_score (fun _ => -1) [("Technical", PyVal.num 10)]
          ⟨"coding", "", [], []⟩ := by
  constructor
  · norm_num [traitNorm, min_def, max_def]
  · simp [trait_alignment_score, traitStep, pyFloat, TRAIT_KEYWORDS, List.lookup,
      traitNorm, min_def, max_def]
    norm_num

/-! ### The empty-profile default phrase (C7) -/

/-- Counterexample to C7 as stated: the hybrid ranking pipeline hands the
Embedding Provider the empty string unchanged — the fixed default phrase is
not substituted in `_cosine_similarities`. -/
theorem empty_profile_encoded_counterexample :
    cosineQueryText "" = "" ∧ "" ≠ "student seeking career guidance" :=
  ⟨rfl, by decide⟩

/-- Amended C7: only the legacy `sbert_recommend` path replaces empty profile
text with the fixed non-empty default phrase; the hybrid `recommend` pipeline
(`_cosine_similarities`) hands the profile text to the Provider unchanged,
including the empty string. -/
theorem profile_query_default_phrase :
    (∀ p : String, cosineQueryText p = p) ∧
      sbertRecommendQueryText "" = "student seeking career guidance" ∧
      sbertRecommendQueryText "" ≠ "" ∧
      (∀ p : String, p ≠ "" → sbertRecommendQueryText p = p) := by
  refine ⟨fun p => rfl, rfl, by decide, ?_⟩
  intro p hp
  simp [sbertRecommendQueryText, hp]

/-- Witness for the amended C7. -/
theorem profile_query_default_phrase_witness :
    cosineQueryText "TopTraits: Technical:10" = "TopTraits: Technical:10" ∧
      sbertRecommendQueryText "TopTraits: Technical:10" = "TopTraits: Technical:10" :=
  ⟨profile_query_default_phrase.1 "TopTraits: Technical:10",
    profile_query_default_phrase.2.2.2 "TopTraits: Technical:10" (by decide)⟩

/-! ### Non-numeric values in the scorers (C8) -/

theorem traitFold_isSome (embSim : String → ℚ) (text : String) :
    ∀ (ts : List (String × PyVal)) (acc : TraitAcc),
      (∀ kv ∈ ts, (List.lookup kv.1 TRAIT_KEYWORDS).isSome → (pyFloat kv.2).isSome) →
      (List.foldlM (traitStep embSim text) acc ts).isSome := by
  intro ts
  induction ts with
  | nil => intro acc _; rw [List.foldlM_nil]; rfl
  | cons kv ts ih =>
    intro acc h
    rw [List.foldlM_cons]
    have hstep : (traitStep embSim text acc kv).isSome := by
      unfold traitStep
      split_ifs with hnone
      · rfl
      · have hsome : (List.lookup kv.1 TRAIT_KEYWORDS).isSome := by
          cases hl : List.lookup kv.1 TRAIT_KEYWORDS
          · rw [hl] at hnone; exact absurd rfl hnone
          · rfl
        have := h kv (List.mem_cons_self kv ts) hsome
        cases hq : pyFloat kv.2 with
        | none => rw [hq] at this; cases this
        | some v =>
          by_cases htn : traitNorm v ≤ 0 <;> simp [htn]
    obtain ⟨acc2, hacc2⟩ := Option.isSome_iff_exists.mp hstep
    rw [hacc2]
    exact ih acc2 (fun p hp => h p (List.mem_cons_of_mem kv hp))

/-- Amended C8: the marks scorer skips non-numeric values (its flattening is
unchanged by deleting a non-numeric entry) and so never raises; the trait
scorer skips entries for unrecognized trait keys, and returns a defined
result whenever every value attached to a recognized trait is numeric — but
(see the counterexample) a non-numeric value for a recognized trait raises. -/
theorem scorers_non_numeric_handling :
    (∀ (pre post : Lvl) (k s : String) (acc : List (String × ℚ)),
      flattenLevel (pre ++ (k, PyVal.nonNumeric s) :: post) acc =
        flattenLevel (pre ++ post) acc) ∧
      (∀ (embSim : String → ℚ) (ts : List (String × PyVal)) (c : Career),
        (∀ kv ∈ ts, (List.lookup kv.1 TRAIT_KEYWORDS).isSome → (pyFloat kv.2).isSome) →
        (trait_alignment_score embSim ts c).isSome) ∧
      (∀ (embSim : String → ℚ) (text : String) (acc : TraitAcc) (k : String) (v : PyVal),
        List.lookup k TRAIT_KEYWORDS = none →
        traitStep embSim text acc (k, v) = some acc) := by
  refine ⟨?_, ?_, ?_⟩
  · intro pre post k s acc
    rw [flattenLevel_append, flattenLevel_cons, flattenLevel_append]
    rfl
  · intro embSim ts c h
    unfold trait_alignment_score
    split_ifs
    · rfl
    · cases hf : List.foldlM (traitStep embSim (careerTraitText c)) ⟨0, 0⟩ ts with
      | none =>
        have := traitFold_isSome embSim (careerTraitText c) ts ⟨0, 0⟩ h
        rw [hf] at this
        cases this
      | some acc =>
        by_cases hta : acc.total ≤ 0 <;> simp [hta]
  · intro embSim text acc k v h
    unfold traitStep
    rw [if_pos (by rw [h]; rfl)]

/-- Witness for the amended C8 on concrete inputs. -/
theorem scorers_non_numeric_handling_witness :
    flattenLevel [("science", PyVal.num 70), ("english", PyVal.nonNumeric "AB")] [] =
        flattenLevel [("science", PyVal.num 70)] [] ∧
      (trait_alignment_score (fun _ => 0) [("Technical", PyVal.num 7)]
          ⟨"coding", "", [], []⟩).isSome ∧
      traitStep (fun _ => 0) "coding" ⟨0, 0⟩ ("Bogus", PyVal.nonNumeric "x") =
        some ⟨0, 0⟩ := by
  refine ⟨?_, ?_, ?_⟩
  · exact scorers_non_numeric_handling.1 [("science", PyVal.num 70)] [] "english" "AB" []
  · exact scorers_non_numeric_handling.2.1 (fun _ => 0) [("Technical", PyVal.num 7)]
      ⟨"coding", "", [], []⟩ (by decide)
  · exact scorers_non_numeric_handling.2.2 (fun _ => 0) "coding" ⟨0, 0⟩ "Bogus"
      (PyVal.nonNumeric "x") (by decide)

/-- Counterexample to C8 as stated: a non-numeric value for the recognized
trait `"Technical"` makes the unguarded `float(raw_val)` raise — the trait
scorer returns no result — while the marks scorer skips its non-numeric
value and returns 0. -/
theorem trait_scorer_non_numeric_counterexample :
    trait_alignment_score (fun _ => -1) [("Technical", PyVal.nonNumeric "high")]
        ⟨"coding", "", [], []⟩ = none ∧
      marks_alignment_score [("tenth", [("math", PyVal.nonNumeric "NA")])]
        ⟨"coding", "", [], []⟩ = 0 := by
  constructor
  · simp [trait_alignment_score, traitStep, pyFloat, TRAIT_KEYWORDS, List.lookup]
  · simp [marks_alignment_score, subjScores, getLevel, flattenLevel, pyFloat, List.lookup]

end CareerRec
